import Mathlib

/-!
Verification development for the document structuring and chunking engine of
the hackrx6 repository (src/app/document_loader.py).

The Python functions `clean_text`, `detect_structure`, `semantic_chunking`
and the section-grouping / reference-extraction loop of
`parse_document_in_memory` are embedded shallowly as executable Lean
functions.  The regular expressions of the source are translated into
explicit character-list matchers that follow Python `re` semantics
(leftmost match, alternation in written order, greedy quantifiers, the
IGNORECASE flag where the source sets it).  The NLTK sentence splitter
`sent_tokenize` is an external collaborator; functions that consume its
output take the sentence list as a parameter.  The NLTK
`WordPunctTokenizer` (regex `\w+|[^\w\s]+`) is embedded as `wpCount`.
-/

namespace DocLoader

/-! ### Character classes (Python `re` ASCII semantics) -/

/-- Python `\s` on ASCII text: space, tab, newline, carriage return,
vertical tab, form feed. -/
def isWsChar (c : Char) : Bool :=
  c = ' ' || c = '\t' || c = '\n' || c = '\r' || c = '\x0b' || c = '\x0c'

def isAsciiDigit (c : Char) : Bool := '0' ≤ c && c ≤ '9'

def isAsciiAlpha (c : Char) : Bool :=
  ('a' ≤ c && c ≤ 'z') || ('A' ≤ c && c ≤ 'Z')

def isAsciiAlnum (c : Char) : Bool := isAsciiAlpha c || isAsciiDigit c

/-- Python `\w` on ASCII text. -/
def isWordChar (c : Char) : Bool := isAsciiAlnum c || c = '_'

/-- ASCII lower-casing, for the IGNORECASE comparisons of the source. -/
def lowerC (c : Char) : Char :=
  if 'A' ≤ c && c ≤ 'Z' then Char.ofNat (c.toNat + 32) else c

/-! ### Small string utilities -/

/-- Python `str.strip()` on a character list. -/
def pyStripL (cs : List Char) : List Char :=
  ((cs.dropWhile isWsChar).reverse.dropWhile isWsChar).reverse

/-- Python `str.strip()`. -/
def pyStrip (s : String) : String := (pyStripL s.data).asString

/-- Python `sep.join(parts)`. -/
def pyJoin (sep : String) : List String → String
  | [] => ""
  | [x] => x
  | x :: xs => x ++ sep ++ pyJoin sep xs

/-- Case-insensitive literal match at the head: returns the consumed
characters (original case, as Python `group(0)` slices do) and the rest. -/
def ciLit : List Char → List Char → Option (List Char × List Char)
  | [], cs => some ([], cs)
  | _, [] => none
  | p :: ps, c :: cs =>
      if lowerC c = lowerC p then
        match ciLit ps cs with
        | some (con, rest) => some (c :: con, rest)
        | none => none
      else none

/-- Whether `pat` occurs at the head of `cs` (case-sensitive). -/
def headLit : List Char → List Char → Bool
  | [], _ => true
  | _, [] => false
  | p :: ps, c :: cs => p = c && headLit ps cs

/-- Whether `sub` occurs anywhere in `hay` (case-sensitive). -/
def containsL (hay sub : List Char) : Bool :=
  match hay with
  | [] => headLit sub []
  | _ :: t => headLit sub hay || containsL t sub

/-- Whether `sub` occurs anywhere in `hay`, both as strings. -/
def strContains (hay sub : String) : Bool := containsL hay.data sub.data

/-- Python `text.lower()` (ASCII). -/
def lowerS (s : String) : String := (s.data.map lowerC).asString

/-- Python `lst[-(min(len(lst), k)):]` for `k ≥ 1`: the last `k` elements. -/
def takeLast (l : List String) (k : Nat) : List String := l.drop (l.length - k)

/-! ### Tokenizers

`semantic_chunking` measures length with NLTK `WordPunctTokenizer`, whose
rule is the regex `\w+|[^\w\s]+`: maximal runs of word characters and
maximal runs of non-word non-space characters each form one token.  The
spec instead speaks of whitespace-delimited word count; both counters are
embedded. -/

inductive WpKind | none | word | punct
deriving DecidableEq

def wpKindOf (c : Char) : WpKind :=
  if isWsChar c then .none else if isWordChar c then .word else .punct

def wpGo : List Char → WpKind → Nat
  | [], _ => 0
  | c :: cs, st =>
      let k := wpKindOf c
      match k with
      | .none => wpGo cs .none
      | _ => (if k = st then 0 else 1) + wpGo cs k

/-- Token count under `WordPunctTokenizer` (regex `\w+|[^\w\s]+`). -/
def wpCount (s : String) : Nat := wpGo s.data .none

def wsGo : List Char → Bool → Nat
  | [], _ => 0
  | c :: cs, inTok =>
      if isWsChar c then wsGo cs false
      else (if inTok then 0 else 1) + wsGo cs true

/-- Whitespace-delimited word count (the spec's notion of token count). -/
def wsCount (s : String) : Nat := wsGo s.data false

/-! ### The heading pattern

Source line 53:
`re.match(r'^(?:\d+\.\s*[A-Z\s]+|\d+\.\d+\.\s*[A-Z\s]+|[A-Z\s]{10,}|[0-9]+\.\s*[A-Za-z].+)', text, re.IGNORECASE)`.
With IGNORECASE the class `[A-Z\s]` matches any ASCII letter or whitespace
character.  Each alternative is decided directly; greedy `\d+` needs no
backtracking because `.` is not a digit. -/

def isAlphaWs (c : Char) : Bool := isAsciiAlpha c || isWsChar c

/-- Alternative `\d+\.\s*[A-Z\s]+`: digits, a dot, then at least one
letter-or-whitespace character (whitespace is in the class, so the `\s*`
collapses into the class run). -/
def headingAltA (cs : List Char) : Bool :=
  let ds := cs.takeWhile isAsciiDigit
  match ds, cs.dropWhile isAsciiDigit with
  | _ :: _, '.' :: c :: _ => isAlphaWs c
  | _, _ => false

/-- Alternative `\d+\.\d+\.\s*[A-Z\s]+`. -/
def headingAltB (cs : List Char) : Bool :=
  let ds := cs.takeWhile isAsciiDigit
  match ds, cs.dropWhile isAsciiDigit with
  | _ :: _, '.' :: r2 =>
      let ds2 := r2.takeWhile isAsciiDigit
      match ds2, r2.dropWhile isAsciiDigit with
      | _ :: _, '.' :: c :: _ => isAlphaWs c
      | _, _ => false
  | _, _ => false

/-- Alternative `[A-Z\s]{10,}` (with IGNORECASE: any letters/whitespace). -/
def headingAltC (cs : List Char) : Bool :=
  10 ≤ (cs.takeWhile isAlphaWs).length

/-- Alternative `[0-9]+\.\s*[A-Za-z].+`: digits, a dot, optional whitespace,
a letter, then at least one further non-newline character (`.` does not
match newline without DOTALL). -/
def headingAltD (cs : List Char) : Bool :=
  let ds := cs.takeWhile isAsciiDigit
  match ds, cs.dropWhile isAsciiDigit with
  | _ :: _, '.' :: r2 =>
      match r2.dropWhile isWsChar with
      | a :: b :: _ => isAsciiAlpha a && b ≠ '\n'
      | _ => false
  | _, _ => false

/-- The heading regex of `detect_structure` (source line 53), as a prefix
match returning a Boolean (the source only tests truthiness). -/
def headingB (s : String) : Bool :=
  headingAltA s.data || headingAltB s.data || headingAltC s.data ||
    headingAltD s.data

/-! ### The clause pattern

Source lines 71 and 164:
`re.match(r'^(?:[a-z]\)|\d+\.|Code\s*-\s*[A-Za-z0-9]+|[ivx]+\.)', text, re.IGNORECASE)`.
The source uses `group(0)`, so the matcher returns the matched slice.
Alternatives are tried in written order. -/

def isIvx (c : Char) : Bool :=
  c = 'i' || c = 'v' || c = 'x' || c = 'I' || c = 'V' || c = 'X'

def clauseAlt1 : List Char → Option (List Char)
  | a :: ')' :: _ => if isAsciiAlpha a then some [a, ')'] else none
  | _ => none

def clauseAlt2 (cs : List Char) : Option (List Char) :=
  let ds := cs.takeWhile isAsciiDigit
  match ds, cs.dropWhile isAsciiDigit with
  | _ :: _, '.' :: _ => some (ds ++ ['.'])
  | _, _ => none

def clauseAlt3 (cs : List Char) : Option (List Char) :=
  match ciLit "code".data cs with
  | some (c4, r1) =>
      let w1 := r1.takeWhile isWsChar
      match r1.dropWhile isWsChar with
      | '-' :: r2 =>
          let w2 := r2.takeWhile isWsChar
          let an := (r2.dropWhile isWsChar).takeWhile isAsciiAlnum
          match an with
          | [] => none
          | _ => some (c4 ++ w1 ++ ['-'] ++ w2 ++ an)
      | _ => none
  | none => none

def clauseAlt4 (cs : List Char) : Option (List Char) :=
  let rs := cs.takeWhile isIvx
  match rs, cs.dropWhile isIvx with
  | _ :: _, '.' :: _ => some (rs ++ ['.'])
  | _, _ => none

/-- The clause-marker regex of `detect_structure` and `semantic_chunking`,
returning `group(0)` on success. -/
def clauseM (s : String) : Option String :=
  match clauseAlt1 s.data <|> clauseAlt2 s.data <|> clauseAlt3 s.data
      <|> clauseAlt4 s.data with
  | some g => some g.asString
  | none => none

/-! ### The contextual-qualifier pattern

Source lines 87 and 155:
`re.search(r'(?:not covered|exclusions?|conditions\s*apply|subject to|except\s*for|unless\s*otherwise\s*stated)', text, re.IGNORECASE)`.
`re.search` takes the leftmost position at which an alternative matches;
at a position, alternatives are tried in written order; the source uses
`group(0)`. -/

def ciConsumed (pat : String) (cs : List Char) : Option (List Char) :=
  match ciLit pat.data cs with
  | some (con, _) => some con
  | none => none

/-- `exclusions?` with the greedy optional `s`. -/
def qualExcl (cs : List Char) : Option (List Char) :=
  match ciLit "exclusion".data cs with
  | some (con, rest) =>
      match rest with
      | c :: _ => if lowerC c = 's' then some (con ++ [c]) else some con
      | [] => some con
  | none => none

/-- Literal, `\s*`, literal (for `conditions\s*apply` and `except\s*for`). -/
def qualTwoWords (p1 p2 : String) (cs : List Char) : Option (List Char) :=
  match ciLit p1.data cs with
  | some (c1, r1) =>
      let w := r1.takeWhile isWsChar
      match ciLit p2.data (r1.dropWhile isWsChar) with
      | some (c2, _) => some (c1 ++ w ++ c2)
      | none => none
  | none => none

/-- `unless\s*otherwise\s*stated`. -/
def qualThreeWords (cs : List Char) : Option (List Char) :=
  match ciLit "unless".data cs with
  | some (c1, r1) =>
      let w1 := r1.takeWhile isWsChar
      match ciLit "otherwise".data (r1.dropWhile isWsChar) with
      | some (c2, r2) =>
          let w2 := r2.takeWhile isWsChar
          match ciLit "stated".data (r2.dropWhile isWsChar) with
          | some (c3, _) => some (c1 ++ w1 ++ c2 ++ w2 ++ c3)
          | none => none
      | none => none
  | none => none

def qualAt (cs : List Char) : Option (List Char) :=
  ciConsumed "not covered" cs <|> qualExcl cs
    <|> qualTwoWords "conditions" "apply" cs
    <|> ciConsumed "subject to" cs
    <|> qualTwoWords "except" "for" cs
    <|> qualThreeWords cs

def searchQualL : List Char → Option (List Char)
  | [] => none
  | c :: cs =>
      match qualAt (c :: cs) with
      | some m => some m
      | none => searchQualL cs

/-- The qualifier search of `detect_structure` / `semantic_chunking`,
returning `group(0)` of the leftmost match. -/
def searchQual (s : String) : Option String :=
  match searchQualL s.data with
  | some m => some m.asString
  | none => none

/-! ### `clean_text` (source lines 13-29)

Each `re.sub(..., '', text)` pass is embedded as a scanner over the
character list: at every position the alternatives are tried in written
order; on a match the span is dropped and scanning resumes after it, as
Python `re.sub` does.  The scanners use explicit fuel (one unit per input
character) for structural termination; fuel is always sufficient because
every step consumes at least one character. -/

/-- Case-insensitive occurrence of `sub` anywhere in `hay`. -/
def containsCi : List Char → List Char → Bool
  | hay, sub =>
    match hay with
    | [] => sub.isEmpty
    | _ :: t => (ciLit sub hay).isSome || containsCi t sub

/-- `Page \d+ of \d+` (case-insensitive). -/
def patPage (cs : List Char) : Option (List Char × List Char) :=
  match ciLit "page ".data cs with
  | some (c1, r1) =>
      let ds := r1.takeWhile isAsciiDigit
      match ds with
      | [] => none
      | _ =>
        match ciLit " of ".data (r1.dropWhile isAsciiDigit) with
        | some (c2, r2) =>
            let ds2 := r2.takeWhile isAsciiDigit
            match ds2 with
            | [] => none
            | _ => some (c1 ++ ds ++ c2 ++ ds2, r2.drop ds2.length)
        | none => none
  | none => none

/-- `UIN: [A-Z0-9]+` (case-insensitive, so the class is any alphanumeric). -/
def patUin (cs : List Char) : Option (List Char × List Char) :=
  match ciLit "uin: ".data cs with
  | some (c1, r1) =>
      let an := r1.takeWhile isAsciiAlnum
      match an with
      | [] => none
      | _ => some (c1 ++ an, r1.drop an.length)
  | none => none

/-- `\b[A-Z][a-zA-Z\s]*Co\.\s*Ltd\.` (case-insensitive).  The dot after
`Co` cannot occur inside the letter/whitespace run, so the greedy star
forces `Co` to be the last two characters of the run. -/
def patCo (prev : Option Char) (cs : List Char) : Option (List Char × List Char) :=
  let boundary := match prev with
    | none => true
    | some p => !isWordChar p
  if !boundary then none else
  match cs with
  | a :: rest =>
      if !isAsciiAlpha a then none else
      let r := rest.takeWhile isAlphaWs
      let m := a :: r
      let tail2 := m.drop (m.length - 2)
      match tail2 with
      | [x, y] =>
          if lowerC x = 'c' && lowerC y = 'o' then
            match rest.drop r.length with
            | '.' :: r2 =>
                let w := r2.takeWhile isWsChar
                match ciLit "ltd".data (r2.dropWhile isWsChar) with
                | some (c3, r3) =>
                    match r3 with
                    | '.' :: r4 => some (m ++ '.' :: (w ++ c3 ++ ['.']), r4)
                    | _ => none
                | none => none
            | _ => none
          else none
      | _ => none
  | [] => none

/-- `Confidential\s*?\n` (case-insensitive): the lazy `\s*?` reaches the
first newline through whitespace only. -/
def patConf (cs : List Char) : Option (List Char × List Char) :=
  match ciLit "confidential".data cs with
  | some (c1, r1) =>
      let w := r1.takeWhile (fun c => isWsChar c && c ≠ '\n')
      match r1.drop w.length with
      | '\n' :: r2 => some (c1 ++ w ++ ['\n'], r2)
      | _ => none
  | none => none

/-- First boilerplate removal pass (source line 16), tracking the previous
original character for the `\b` of the company pattern. -/
def boiler1Go : Nat → Option Char → List Char → List Char
  | 0, _, cs => cs
  | fuel + 1, prev, cs =>
      match cs with
      | [] => []
      | c :: rest =>
          match patPage cs <|> patUin cs <|> patCo prev cs <|> patConf cs with
          | some (con, r) => boiler1Go fuel (con.getLast?) r
          | none => c :: boiler1Go fuel (some c) rest

def boiler1 (cs : List Char) : List Char := boiler1Go (cs.length + 1) none cs

/-- `\s+` → a single space (source line 18). -/
def wsNormGo : Nat → List Char → List Char
  | 0, cs => cs
  | fuel + 1, cs =>
      match cs with
      | [] => []
      | c :: rest =>
          if isWsChar c then ' ' :: wsNormGo fuel (rest.dropWhile isWsChar)
          else c :: wsNormGo fuel rest

def wsNorm (cs : List Char) : List Char := wsNormGo (cs.length + 1) cs

/-- `(\w+)-\s*(\w+)` → `\1\2` (source line 20).  A failed attempt cannot
succeed from a later start inside the same word run, so scanning resumes
after the run. -/
def hyFixGo : Nat → List Char → List Char
  | 0, cs => cs
  | fuel + 1, cs =>
      match cs with
      | [] => []
      | c :: rest =>
          if isWordChar c then
            let w1 := c :: rest.takeWhile isWordChar
            let r1 := rest.dropWhile isWordChar
            match r1 with
            | '-' :: r2 =>
                let r3 := r2.dropWhile isWsChar
                let w2 := r3.takeWhile isWordChar
                match w2 with
                | [] => w1 ++ hyFixGo fuel r1
                | _ => w1 ++ w2 ++ hyFixGo fuel (r3.drop w2.length)
            | _ => w1 ++ hyFixGo fuel r1
          else c :: hyFixGo fuel rest

def hyFix (cs : List Char) : List Char := hyFixGo (cs.length + 1) cs

/-- Email boilerplate pass (source line 23):
`(?:--+\s*Sent from.*|On .* wrote:.*|Best regards,.*|Sincerely,.*)`,
case-insensitive; each alternative ends in `.*`, which runs to the end of
the current line. -/
def emlAt (cs : List Char) : Option (List Char) :=
  let toLineEnd := fun (c1 : List Char) (r : List Char) =>
    some (c1 ++ r.takeWhile (· ≠ '\n'))
  let alt1 :=
    let hys := cs.takeWhile (· = '-')
    if hys.length < 2 then none else
    let r1 := cs.drop hys.length
    match ciLit "sent from".data (r1.dropWhile isWsChar) with
    | some (c2, r2) =>
        toLineEnd (hys ++ r1.takeWhile isWsChar ++ c2) r2
    | none => none
  let alt2 :=
    match ciLit "on ".data cs with
    | some (c1, r1) =>
        let ln := r1.takeWhile (· ≠ '\n')
        if containsCi ln " wrote:".data then some (c1 ++ ln) else none
    | none => none
  let alt3 :=
    match ciLit "best regards,".data cs with
    | some (c1, r1) => toLineEnd c1 r1
    | none => none
  let alt4 :=
    match ciLit "sincerely,".data cs with
    | some (c1, r1) => toLineEnd c1 r1
    | none => none
  alt1 <|> alt2 <|> alt3 <|> alt4

def emlGo : Nat → List Char → List Char
  | 0, cs => cs
  | fuel + 1, cs =>
      match cs with
      | [] => []
      | c :: rest =>
          match emlAt cs with
          | some con => emlGo fuel (cs.drop con.length)
          | none => c :: emlGo fuel rest

def emlClean (cs : List Char) : List Char := emlGo (cs.length + 1) cs

/-- DOCX artifact pass (source line 26): `(\[.*?\]|\{.*?\})` → empty; the
lazy dot (which cannot cross a newline) stops at the first closer. -/
def docxGo : Nat → List Char → List Char
  | 0, cs => cs
  | fuel + 1, cs =>
      match cs with
      | [] => []
      | c :: rest =>
          if c = '[' then
            let inner := rest.takeWhile (fun d => d ≠ ']' && d ≠ '\n')
            match rest.drop inner.length with
            | ']' :: r2 => docxGo fuel r2
            | _ => c :: docxGo fuel rest
          else if c = Char.ofNat 123 then
            let inner := rest.takeWhile (fun d => d ≠ Char.ofNat 125 && d ≠ '\n')
            match rest.drop inner.length with
            | d :: r2 =>
                if d = Char.ofNat 125 then docxGo fuel r2
                else c :: docxGo fuel rest
            | _ => c :: docxGo fuel rest
          else c :: docxGo fuel rest

def docxClean (cs : List Char) : List Char := docxGo (cs.length + 1) cs

/-- Second boilerplate pass (source line 28):
`(?:This document is.*|All rights reserved|Version \d+\.\d+)`,
case-insensitive. -/
def boiler2At (cs : List Char) : Option (List Char) :=
  let alt1 :=
    match ciLit "this document is".data cs with
    | some (c1, r1) => some (c1 ++ r1.takeWhile (· ≠ '\n'))
    | none => none
  let alt2 :=
    match ciLit "all rights reserved".data cs with
    | some (c1, _) => some c1
    | none => none
  let alt3 :=
    match ciLit "version ".data cs with
    | some (c1, r1) =>
        let ds := r1.takeWhile isAsciiDigit
        match ds with
        | [] => none
        | _ =>
          match r1.drop ds.length with
          | '.' :: r2 =>
              let ds2 := r2.takeWhile isAsciiDigit
              match ds2 with
              | [] => none
              | _ => some (c1 ++ ds ++ '.' :: ds2)
          | _ => none
    | none => none
  alt1 <|> alt2 <|> alt3

def boiler2Go : Nat → List Char → List Char
  | 0, cs => cs
  | fuel + 1, cs =>
      match cs with
      | [] => []
      | c :: rest =>
          match boiler2At cs with
          | some con => boiler2Go fuel (cs.drop con.length)
          | none => c :: boiler2Go fuel rest

def boiler2 (cs : List Char) : List Char := boiler2Go (cs.length + 1) cs

/-- `clean_text(text, doc_ext)` (source lines 13-29). -/
def cleanText (text : String) (docExt : String) : String :=
  let t1 := boiler1 text.data
  let t2 := wsNorm t1
  let t3 := hyFix t2
  let t4 := if docExt = ".eml" then emlClean t3 else t3
  let t5 := if docExt = ".docx" then docxClean t4 else t4
  let t6 := boiler2 t5
  (pyStripL t6).asString

/-! ### Cross-reference extraction (source line 288)

`re.findall(r'(?:See|Refer to)\s*(?:Section|Clause)\s*[A-Z0-9\-.\s]+', ..., re.IGNORECASE)`.
With IGNORECASE the identifier class matches any letter, digit, hyphen,
dot or whitespace; the greedy `+` therefore extends through trailing
words. -/

def isRefCls (c : Char) : Bool :=
  isAsciiAlnum c || c = '-' || c = '.' || isWsChar c

def refAt (cs : List Char) : Option (List Char × List Char) :=
  match ciLit "see".data cs <|> ciLit "refer to".data cs with
  | some (c1, r1) =>
      let w1 := r1.takeWhile isWsChar
      let r2 := r1.dropWhile isWsChar
      match ciLit "section".data r2 <|> ciLit "clause".data r2 with
      | some (c2, r3) =>
          let cls := r3.takeWhile isRefCls
          match cls with
          | [] => none
          | _ => some (c1 ++ w1 ++ c2 ++ cls, r3.drop cls.length)
      | none => none
  | none => none

def refFindGo : Nat → List Char → List String
  | 0, _ => []
  | fuel + 1, cs =>
      match cs with
      | [] => []
      | c :: rest =>
          match refAt cs with
          | some (m, r) => m.asString :: refFindGo fuel r
          | none =>
              let _ := c
              refFindGo fuel rest

/-- All cross-reference matches in document order. -/
def refFindAll (s : String) : List String := refFindGo (s.data.length + 1) s.data

/-! ### Data model

`ParsedElement` carries the attributes `detect_structure` reads: the text
(absent when the object has no `text` attribute), the page number (absent,
or falsy `0`, leaves the counter untouched) and the `unstructured`
category. -/

inductive Category
  | Title
  | ListItem
  | Table
  | Other
deriving DecidableEq, Repr

structure PElement where
  text : Option String := none
  page : Option Nat := none
  category : Option Category := none
deriving DecidableEq, Repr

/-- The `metadata` dictionary of an annotated record.  The Python key
`section` is spelled `sect` (Lean keyword). -/
structure RecMeta where
  sect : Option String
  clause : Option String
  page : Nat
  context : List String
deriving DecidableEq, Repr

/-- A resolved annotated record: the dictionary `detect_structure` appends
to `structured_elements`, with its context list read off at return time. -/
structure ARecord where
  text : String
  heading : Option String
  sect : Option String
  clause : Option String
  page : Nat
  context : List String
deriving DecidableEq, Repr

/-! ### `detect_structure` (source lines 31-138)

Python stores `context_stack` into records by reference; later
`context_stack.append(...)` calls therefore mutate lists held by earlier
records, while `context_stack = []` at a heading rebinds to a fresh list.
The embedding mirrors this with context epochs: each heading closes the
current epoch and opens a new one; a raw record holds either an immutable
literal list (the heading branch writes a fresh `[]`) or the index of its
epoch, resolved to the epoch's final contents when the function returns. -/

inductive CtxRef
  | fixed (l : List String)
  | epoch (i : Nat)
deriving DecidableEq, Repr

structure RawRec where
  text : String
  heading : Option String
  sect : Option String
  clause : Option String
  page : Nat
  ctx : CtxRef
deriving DecidableEq, Repr

structure DetectState where
  sect : Option String := none
  clause : Option String := none
  page : Nat := 1
  heading : Option String := none
  finished : List (List String) := []
  cur : List String := []
deriving DecidableEq, Repr

/-- Trimmed element text: `element.text.strip() if hasattr(element, 'text') else ''`. -/
def elemText (e : PElement) : String := pyStrip (e.text.getD "")

/-- `hasattr(element, 'category') and element.category == 'Title'`. -/
def isTitleCat (e : PElement) : Bool := e.category = some Category.Title

/-- Whether the element takes the heading branch (source lines 53-54). -/
def isHeadingElem (e : PElement) : Bool :=
  elemText e != "" && (headingB (elemText e) || isTitleCat e)

/-- Whether the element takes the clause branch (source lines 71-72). -/
def isClauseElem (e : PElement) : Bool :=
  elemText e != "" && !(headingB (elemText e) || isTitleCat e)
    && (clauseM (elemText e)).isSome

/-- `'annexure' in text.lower() or 'schedule' in text.lower()`. -/
def isAnnex (t : String) : Bool :=
  strContains (lowerS t) "annexure" || strContains (lowerS t) "schedule"

/-- Page-counter update (source lines 49-50): Python tests the truthiness
of `element.metadata.page_number`, so a missing or zero page number
leaves the counter untouched. -/
def pageUpd (st : DetectState) (e : PElement) : DetectState :=
  match e.page with
  | some p => if p ≠ 0 then { st with page := p } else st
  | none => st

/-- Qualifier detection (source lines 87-89): a match is appended to the
current context stack. -/
def qualUpd (st : DetectState) (text : String) : DetectState :=
  match searchQual text with
  | some q => { st with cur := st.cur ++ [q] }
  | none => st

/-- One iteration of the `for element in elements` loop. -/
def dsStep (st : DetectState) (e : PElement) : DetectState × Option RawRec :=
  let text := elemText e
  if text = "" then (st, none)
  else
    let st := pageUpd st e
    if headingB text || isTitleCat e then
      ({ st with sect := some text, heading := some text,
                 finished := st.finished ++ [st.cur], cur := [] },
       some { text := text, heading := some text, sect := some text,
              clause := none, page := st.page, ctx := .fixed [] })
    else
      match clauseM text with
      | some m =>
          ({ st with clause := some m },
           some { text := text, heading := st.heading, sect := st.sect,
                  clause := some m, page := st.page,
                  ctx := .epoch st.finished.length })
      | none =>
          let st := qualUpd st text
          let rec0 : RawRec :=
            { text := text, heading := st.heading, sect := st.sect,
              clause := st.clause, page := st.page,
              ctx := .epoch st.finished.length }
          match e.category with
          | some .ListItem => (st, some rec0)
          | some .Table => (st, some rec0)
          | _ =>
              if isAnnex text then
                (st, some { text := text, heading := some (st.heading.getD text),
                            sect := some (st.sect.getD text), clause := none,
                            page := st.page, ctx := .epoch st.finished.length })
              else (st, some rec0)

def dsGo : List PElement → DetectState → DetectState × List RawRec
  | [], st => (st, [])
  | e :: es, st =>
      let (st1, r?) := dsStep st e
      let (st2, rs) := dsGo es st1
      (st2, r?.toList ++ rs)

/-- Resolve a context reference against the final epoch store. -/
def resolveCtx (epochs : List (List String)) : CtxRef → List String
  | .fixed l => l
  | .epoch i => epochs.getD i []

def resolveRec (epochs : List (List String)) (r : RawRec) : ARecord :=
  { text := r.text, heading := r.heading, sect := r.sect,
    clause := r.clause, page := r.page, context := resolveCtx epochs r.ctx }

/-- `detect_structure(elements)`: the records as observable at return time
(after all aliasing through the shared context lists has taken effect). -/
def detectStructure (es : List PElement) : List ARecord :=
  let (st, rs) := dsGo es {}
  rs.map (resolveRec (st.finished ++ [st.cur]))

/-! ### `semantic_chunking` (source lines 140-230)

`sent_tokenize` is the external NLTK sentence splitter; the embedding
takes the sentence list it produced as input.  All length bookkeeping
uses `wpCount` (the source's `WordPunctTokenizer`).  The `overlap`
parameter is faithful to the source, whose body never reads it: the
1-versus-2 sentence overlap decision compares against the literal 100. -/

structure Chunk where
  chunk_text : String
  heading : Option String
  sect : Option String
  clause : String
  page : Nat
  context : List String
  references : Option (List String) := none
deriving DecidableEq, Repr

structure SCCfg where
  heading : Option String
  md : RecMeta
  ctx : List String
  maxTokens : Nat
deriving Repr

structure SCState where
  chunks : List Chunk
  curChunk : List String
  curLen : Nat
  clauseBuf : List String
  clauseLen : Nat
  curClause : Option String
deriving Repr

/-- `' '.join(current_chunk)` with the bracketed context phrase prepended
when `current_context` is non-empty (source lines 173-175). -/
def mkChunkText (cfg : SCCfg) (parts : List String) : String :=
  let t := pyJoin " " parts
  match cfg.ctx with
  | [] => t
  | _ => "[" ++ pyJoin " " cfg.ctx ++ "] " ++ t

/-- The chunk dictionary appended by `chunks.append(...)`:
`{**metadata, 'clause': current_clause or '', 'context': current_context}`. -/
def mkChunk (cfg : SCCfg) (cl : Option String) (text : String) : Chunk :=
  { chunk_text := text, heading := cfg.heading, sect := cfg.md.sect,
    clause := cl.getD "", page := cfg.md.page, context := cfg.ctx }

/-- One iteration of the `for sentence in sentences` loop
(source lines 162-191). -/
def scStep (cfg : SCCfg) (st : SCState) (s : String) : SCState :=
  let stoks := wpCount s
  let icm := clauseM s
  let st :=
    if icm.isSome && !st.clauseBuf.isEmpty then
      let st1 :=
        if st.curLen + st.clauseLen ≤ cfg.maxTokens then
          { st with curChunk := st.curChunk ++ st.clauseBuf,
                    curLen := st.curLen + st.clauseLen }
        else
          let ov := takeLast st.clauseBuf (if st.clauseLen < 100 then 1 else 2)
          let ovLen := (ov.map wpCount).sum
          { st with
            chunks := st.chunks ++
              [mkChunk cfg st.curClause (mkChunkText cfg st.curChunk)],
            curChunk := match cfg.heading with
              | some h => h :: ov
              | none => ov,
            curLen := match cfg.heading with
              | some h => wpCount h + ovLen
              | none => ovLen }
      { st1 with clauseBuf := [], clauseLen := 0, curClause := icm }
    else st
  { st with clauseBuf := st.clauseBuf ++ [s], clauseLen := st.clauseLen + stoks }

/-- The post-loop flush (source lines 193-228).  In the fitting branch the
source extends `current_chunk` without updating `current_length`; in the
non-fitting branch it emits the accumulated chunk, reseeds from the
overlap tail and immediately emits the reseeded chunk as well, leaving
`current_chunk` set so that the final `if` emits it once more. -/
def scFinish (cfg : SCCfg) (st : SCState) : SCState :=
  let st :=
    if !st.clauseBuf.isEmpty then
      if st.curLen + st.clauseLen ≤ cfg.maxTokens then
        { st with curChunk := st.curChunk ++ st.clauseBuf }
      else
        let ov := takeLast st.clauseBuf (if st.clauseLen < 100 then 1 else 2)
        let ovLen := (ov.map wpCount).sum
        let curChunk2 : List String := match cfg.heading with
          | some h => h :: ov
          | none => ov
        let curLen2 := match cfg.heading with
          | some h => wpCount h + ovLen
          | none => ovLen
        { st with
          chunks := st.chunks ++
            [mkChunk cfg st.curClause (mkChunkText cfg st.curChunk),
             mkChunk cfg st.curClause (mkChunkText cfg curChunk2)],
          curChunk := curChunk2, curLen := curLen2 }
    else st
  if !st.curChunk.isEmpty &&
      (1 < st.curChunk.length ||
        (match cfg.heading with
         | none => true
         | some h => st.curChunk.headD "" ≠ h)) then
    { st with chunks := st.chunks ++
        [mkChunk cfg st.curClause (mkChunkText cfg st.curChunk)] }
  else st

/-- The fallback context detection over the sentence list
(source lines 153-157), with its `not in` deduplication. -/
def fallbackCtx (sentences : List String) : List String :=
  sentences.foldl
    (fun acc s =>
      match searchQual s with
      | some q => if q ∈ acc then acc else acc ++ [q]
      | none => acc) []

/-- `semantic_chunking` on an already-split sentence list. -/
def semanticChunkingCore (sentences : List String) (heading : Option String)
    (md : RecMeta) (maxTokens : Nat) (overlap : Nat) : List Chunk :=
  let _ := overlap
  let ctx := match md.context with
    | [] => fallbackCtx sentences
    | l => l
  let cfg : SCCfg := ⟨heading, md, ctx, maxTokens⟩
  let st0 : SCState :=
    { chunks := []
      curChunk := match heading with
        | some h => [h]
        | none => []
      curLen := match heading with
        | some h => wpCount h
        | none => 0
      clauseBuf := []
      clauseLen := 0
      curClause := md.clause }
  (scFinish cfg (sentences.foldl (scStep cfg) st0)).chunks

/-- `semantic_chunking` as called from `parse_document_in_memory`, where
`current_metadata` may still be Python `None`: line 149
(`metadata.get('context', [])`) then raises `AttributeError`. -/
def semanticChunkingE (sentences : List String) (heading : Option String)
    (md? : Option RecMeta) (maxTokens : Nat) (overlap : Nat) :
    Except String (List Chunk) :=
  match md? with
  | none => .error "AttributeError: NoneType metadata"
  | some md => .ok (semanticChunkingCore sentences heading md maxTokens overlap)

/-! ### Section grouping and reference attachment
(`parse_document_in_memory`, source lines 257-290)

The sentence splitter applied to each section text is a parameter. -/

/-- The `metadata` dictionary carried by an annotated record. -/
def recMeta (r : ARecord) : RecMeta :=
  ⟨r.sect, r.clause, r.page, r.context⟩

/-- The `for element in structured_elements` grouping loop plus the final
flush (source lines 265-284), with `max_tokens = 500`, `overlap = 100`. -/
def pcGo (split : String → List String) :
    List ARecord → Option String → Option RecMeta → List String →
      List Chunk → Except String (List Chunk)
  | [], ch, md, texts, acc =>
      if texts.isEmpty then .ok acc
      else
        match semanticChunkingE (split (pyJoin " " texts)) ch md 500 100 with
        | .error e => .error e
        | .ok cs => .ok (acc ++ cs)
  | r :: rs, ch, md, texts, acc =>
      if r.heading ≠ ch then
        if texts.isEmpty then
          pcGo split rs r.heading (some (recMeta r)) [r.text] acc
        else
          match semanticChunkingE (split (pyJoin " " texts)) ch md 500 100 with
          | .error e => .error e
          | .ok cs => pcGo split rs r.heading (some (recMeta r)) [r.text] (acc ++ cs)
      else pcGo split rs ch md (texts ++ [r.text]) acc

def processChunks (split : String → List String) (records : List ARecord) :
    Except String (List Chunk) :=
  pcGo split records none none [] []

/-- The reference-attachment loop (source lines 287-290): chunks without
a match keep no `references` key. -/
def extractRefs (c : Chunk) : Chunk :=
  match refFindAll c.chunk_text with
  | [] => c
  | refs => { c with references := some refs }

/-- Structure detection, section grouping, chunking and reference
extraction composed, as in `parse_document_in_memory` after parsing. -/
def ingestPipeline (split : String → List String) (es : List PElement) :
    Except String (List Chunk) :=
  (processChunks split (detectStructure es)).map (List.map extractRefs)

/-- The qualifier this element contributes to its section's context
stack, recomputed directly from the classification cascade: only an
element that is non-empty and reaches the post-clause stage can append
its leftmost qualifier match. -/
def elemQual (e : PElement) : Option String :=
  if elemText e = "" then none
  else if headingB (elemText e) || isTitleCat e then none
  else if (clauseM (elemText e)).isSome then none
  else searchQual (elemText e)

/-- All qualifiers contributed by a sequence of elements, in order. -/
def qualsOf (es : List PElement) : List String := es.filterMap elemQual

/-- Invariant of the sentence loop used for the restricted chunk-size
bound (heading absent, context empty): the length counters track the
word-punct token sums of their buffers, the growing chunk stays within
`max_tokens`, every buffered sentence is short, and every emitted chunk
is within `max_tokens`. -/
def C2Inv (cfg : SCCfg) (st : SCState) : Prop :=
  st.curLen = (st.curChunk.map wpCount).sum ∧
  st.clauseLen = (st.clauseBuf.map wpCount).sum ∧
  st.curLen ≤ cfg.maxTokens ∧
  (∀ x ∈ st.clauseBuf, wpCount x < 100) ∧
  (∀ c ∈ st.chunks, wpCount c.chunk_text ≤ cfg.maxTokens)

/-! ### Concrete inputs used by the claim theorems -/

/-- `n` words of one letter joined by single spaces. -/
def wRep (n : Nat) : String := pyJoin " " (List.replicate n "w")

/-- An empty record-metadata dictionary (no section, no clause, page 1,
no context). -/
def mdEmpty : RecMeta := ⟨none, none, 1, []⟩

/-- A one-element document whose text matches neither the heading nor the
clause pattern, so no heading is ever detected. -/
def c1elems : List PElement := [{ text := some "5% fee applies." }]

/-- Two sentences of about 320 words each; the first starts with the
clause marker `1.`. -/
def c2sents : List String := ["1. " ++ wRep 320, wRep 320]

/-- A section whose second clause (`2. qq`) does not fit together with the
accumulated chunk and has more sentences than the overlap tail keeps. -/
def c3sents : List String := ["1. w w w w w w w", "2. qq", "zz", "3. y"]

/-- The element sequence of the spec's structure-detection scenario. -/
def c4elems : List PElement :=
  [ { text := some "SECTION 1: DEFINITIONS" },
    { text := some "1. Hospital means an institution..." },
    { text := some "2. Ambulance means..." } ]

/-- A clause element followed by a plain element that introduces the
qualifier `not covered` after the clause record was created. -/
def c6elems : List PElement :=
  [ { text := some "a) foo" },
    { text := some "costs: not covered." } ]

/-- A heading, a Table-category element, and a plain element, all in one
heading group. -/
def c7elems : List PElement :=
  [ { text := some "POLICY BENEFITS" },
    { text := some "Row1 2 Row2 3", category := some Category.Table },
    { text := some "fees: apply." } ]

/-- Representative boilerplate inputs (page marker, UIN code, whitespace
run, Confidential banner, rights notice) for the normalization
idempotence check. -/
def c8reps : List String :=
  [ "Page 3 of 10 coverage applies",
    "UIN: ABC123 some terms",
    "Policy   terms \t apply",
    "Confidential\nterms apply",
    "fees apply. All rights reserved" ]

/-- A chunk whose text contains a cross reference with trailing words. -/
def c9chunk : Chunk :=
  { chunk_text := "See Section 4.2 for details", heading := none,
    sect := none, clause := "", page := 1, context := [] }

/-- Clause element, heading element and plain element for the clause
persistence witness. -/
def c10c : PElement := { text := some "a) x" }

def c10h : PElement := { text := some "HELLO WORLD FRIENDS" }

def c10p : PElement := { text := some "5% fee" }

end DocLoader

deriving instance DecidableEq for Except

namespace DocLoader

/-! ## Supporting lemmas -/

theorem pageUpd_clause (st : DetectState) (e : PElement) :
    (pageUpd st e).clause = st.clause := by
  unfold pageUpd
  cases e.page with
  | none => rfl
  | some p => by_cases hp : p ≠ 0 <;> simp [hp]

theorem pageUpd_finished (st : DetectState) (e : PElement) :
    (pageUpd st e).finished = st.finished := by
  unfold pageUpd
  cases e.page with
  | none => rfl
  | some p => by_cases hp : p ≠ 0 <;> simp [hp]

theorem pageUpd_cur (st : DetectState) (e : PElement) :
    (pageUpd st e).cur = st.cur := by
  unfold pageUpd
  cases e.page with
  | none => rfl
  | some p => by_cases hp : p ≠ 0 <;> simp [hp]

theorem pageUpd_heading (st : DetectState) (e : PElement) :
    (pageUpd st e).heading = st.heading := by
  unfold pageUpd
  cases e.page with
  | none => rfl
  | some p => by_cases hp : p ≠ 0 <;> simp [hp]

theorem qualUpd_clause (st : DetectState) (t : String) :
    (qualUpd st t).clause = st.clause := by
  unfold qualUpd
  cases searchQual t <;> rfl

theorem qualUpd_finished (st : DetectState) (t : String) :
    (qualUpd st t).finished = st.finished := by
  unfold qualUpd
  cases searchQual t <;> rfl

theorem qualUpd_cur (st : DetectState) (t : String) :
    (qualUpd st t).cur = st.cur ++ (searchQual t).toList := by
  unfold qualUpd
  cases searchQual t <;> simp

theorem dsStep_empty (st : DetectState) (e : PElement) (h : elemText e = "") :
    dsStep st e = (st, none) := by
  unfold dsStep
  simp [h]

theorem dsStep_isSome (st : DetectState) (e : PElement) (h : elemText e ≠ "") :
    ((dsStep st e).2).isSome = true := by
  unfold dsStep
  simp only [h, if_false, ite_false]
  split
  · rfl
  · split
    · rfl
    · split <;> first | rfl | (split <;> rfl)

theorem dsGo_append (a b : List PElement) (st : DetectState) :
    dsGo (a ++ b) st =
      ((dsGo b (dsGo a st).1).1, (dsGo a st).2 ++ (dsGo b (dsGo a st).1).2) := by
  induction a generalizing st with
  | nil => simp [dsGo]
  | cons e es ih =>
      simp only [List.cons_append, dsGo, List.append_eq, ih, List.append_assoc]

theorem dsGo_length (es : List PElement) (st : DetectState) :
    ((dsGo es st).2).length = es.countP (fun e => elemText e != "") := by
  induction es generalizing st with
  | nil => simp [dsGo]
  | cons e es ih =>
      simp only [dsGo, List.countP_cons]
      by_cases h : elemText e = ""
      · rw [dsStep_empty st e h]
        simp [ih, h]
      · have hs := dsStep_isSome st e h
        obtain ⟨r, hr⟩ := Option.isSome_iff_exists.mp hs
        simp [hr, ih, h, Nat.add_comm]

theorem dsStep_clause_preserved (st : DetectState) (e : PElement)
    (h : isClauseElem e = false) : (dsStep st e).1.clause = st.clause := by
  by_cases h0 : elemText e = ""
  · rw [dsStep_empty st e h0]
  · by_cases hH : (headingB (elemText e) || isTitleCat e) = true
    · simp [dsStep, h0, hH, pageUpd_clause]
    · have hH' : (headingB (elemText e) || isTitleCat e) = false :=
        Bool.not_eq_true _ ▸ Bool.of_not_eq_true hH
      cases hC : clauseM (elemText e) with
      | some m =>
          exfalso
          rw [isClauseElem, hH', hC] at h
          simp [h0] at h
      | none =>
          cases hcat : e.category with
          | none =>
              simp only [dsStep, h0, hH', hcat, hC]
              simp only [ite_false, if_neg, Bool.false_eq_true]
              split <;> simp [qualUpd_clause, pageUpd_clause]
          | some cat =>
              cases cat <;>
                · simp only [dsStep, h0, hH', hcat, hC]
                  simp only [ite_false, if_neg, Bool.false_eq_true]
                  first
                  | (split <;> simp [qualUpd_clause, pageUpd_clause])
                  | simp [qualUpd_clause, pageUpd_clause]

theorem dsStep_clause_set (st : DetectState) (c : PElement) (m : String)
    (h0 : elemText c ≠ "")
    (hH : (headingB (elemText c) || isTitleCat c) = false)
    (hm : clauseM (elemText c) = some m) :
    (dsStep st c).1.clause = some m := by
  unfold dsStep
  simp [h0, hH, hm]

theorem dsGo_clause_preserved (es : List PElement) (st : DetectState)
    (h : ∀ e ∈ es, isClauseElem e = false) :
    (dsGo es st).1.clause = st.clause := by
  induction es generalizing st with
  | nil => rfl
  | cons e es ih =>
      simp only [dsGo]
      rw [ih _ (fun x hx => h x (List.mem_cons_of_mem e hx))]
      exact dsStep_clause_preserved st e (h e (List.mem_cons_self e es))

theorem dsStep_plain_emits (st : DetectState) (p : PElement)
    (h0 : elemText p ≠ "")
    (hH : (headingB (elemText p) || isTitleCat p) = false)
    (hC : clauseM (elemText p) = none)
    (hcat : p.category = some Category.ListItem ∨ p.category = some Category.Table ∨
      isAnnex (elemText p) = false) :
    ((dsStep st p).2).map RawRec.clause = some st.clause := by
  rcases hcat with hcat | hcat | hcat
  · simp [dsStep, h0, hH, hC, hcat, qualUpd_clause, pageUpd_clause]
  · simp [dsStep, h0, hH, hC, hcat, qualUpd_clause, pageUpd_clause]
  · cases hc2 : p.category with
    | none =>
        simp [dsStep, h0, hH, hC, hc2, hcat, qualUpd_clause, pageUpd_clause]
    | some cat =>
        cases cat <;>
          simp [dsStep, h0, hH, hC, hc2, hcat, qualUpd_clause, pageUpd_clause]

theorem dsGo_nil (st : DetectState) : dsGo [] st = (st, []) := rfl

theorem dsGo_cons_fst (e : PElement) (es : List PElement) (st : DetectState) :
    (dsGo (e :: es) st).1 = (dsGo es (dsStep st e).1).1 := rfl

theorem dsGo_cons_snd (e : PElement) (es : List PElement) (st : DetectState) :
    (dsGo (e :: es) st).2 =
      ((dsStep st e).2).toList ++ (dsGo es (dsStep st e).1).2 := rfl

theorem detectStructure_eq (es : List PElement) :
    detectStructure es =
      ((dsGo es {}).2).map
        (resolveRec ((dsGo es {}).1.finished ++ [(dsGo es {}).1.cur])) := rfl

theorem resolveRec_clause (ep : List (List String)) (r : RawRec) :
    (resolveRec ep r).clause = r.clause := rfl

theorem heading_not_clause (e : PElement) (h : isHeadingElem e = true) :
    isClauseElem e = false := by
  rw [isHeadingElem, Bool.and_eq_true] at h
  rw [isClauseElem, h.2]
  simp

theorem dsStep_no_heading (st : DetectState) (e : PElement)
    (h : isHeadingElem e = false) :
    (dsStep st e).1.finished = st.finished ∧
    (dsStep st e).1.cur = st.cur ++ (elemQual e).toList ∧
    ∀ r ∈ ((dsStep st e).2).toList, r.ctx = CtxRef.epoch st.finished.length := by
  by_cases h0 : elemText e = ""
  · rw [dsStep_empty st e h0]
    simp [elemQual, h0]
  · have hH : (headingB (elemText e) || isTitleCat e) = false := by
      cases hb : (headingB (elemText e) || isTitleCat e)
      · rfl
      · exfalso
        rw [isHeadingElem, hb] at h
        simp [h0] at h
    cases hC : clauseM (elemText e) with
    | some m =>
        refine ⟨?_, ?_, ?_⟩ <;>
          simp [dsStep, h0, hH, hC, elemQual, pageUpd_finished, pageUpd_cur]
    | none =>
        have hq : elemQual e = searchQual (elemText e) := by
          simp [elemQual, h0, hH, hC]
        cases hcat : e.category with
        | none =>
            refine ⟨?_, ?_, ?_⟩ <;>
              · simp only [dsStep, h0, hH, hC, hcat, ite_false, if_neg,
                  Bool.false_eq_true]
                first
                | (split <;> simp [hq, qualUpd_finished, qualUpd_cur,
                    pageUpd_finished, pageUpd_cur])
                | simp [hq, qualUpd_finished, qualUpd_cur, pageUpd_finished,
                    pageUpd_cur]
        | some cat =>
            cases cat <;>
              refine ⟨?_, ?_, ?_⟩ <;>
                · simp only [dsStep, h0, hH, hC, hcat, ite_false, if_neg,
                    Bool.false_eq_true]
                  first
                  | (split <;> simp [hq, qualUpd_finished, qualUpd_cur,
                      pageUpd_finished, pageUpd_cur])
                  | simp [hq, qualUpd_finished, qualUpd_cur, pageUpd_finished,
                      pageUpd_cur]

theorem dsGo_no_heading (es : List PElement) (st : DetectState)
    (h : ∀ e ∈ es, isHeadingElem e = false) :
    (dsGo es st).1.finished = st.finished ∧
    (dsGo es st).1.cur = st.cur ++ qualsOf es ∧
    ∀ r ∈ (dsGo es st).2, r.ctx = CtxRef.epoch st.finished.length := by
  induction es generalizing st with
  | nil => simp [dsGo_nil, qualsOf]
  | cons e es ih =>
      obtain ⟨hf, hc, hr⟩ := dsStep_no_heading st e (h e (List.mem_cons_self e es))
      obtain ⟨ihf, ihc, ihr⟩ :=
        ih (dsStep st e).1 (fun x hx => h x (List.mem_cons_of_mem e hx))
      refine ⟨?_, ?_, ?_⟩
      · rw [dsGo_cons_fst, ihf, hf]
      · rw [dsGo_cons_fst, ihc, hc]
        simp only [qualsOf, List.filterMap_cons]
        cases elemQual e <;> simp
      · intro r hrm
        rw [dsGo_cons_snd] at hrm
        rcases List.mem_append.mp hrm with h1 | h2
        · exact hr r h1
        · have h3 := ihr r h2
          rw [hf] at h3
          exact h3

theorem wpGo_append_space (xs ys : List Char) (st : WpKind) :
    wpGo (xs ++ ' ' :: ys) st = wpGo xs st + wpGo ys .none := by
  induction xs generalizing st with
  | nil =>
      simp [wpGo, wpKindOf, isWsChar]
  | cons c cs ih =>
      simp only [List.cons_append, List.append_eq, wpGo]
      cases hk : wpKindOf c with
      | none => simp only [hk]; rw [ih]
      | word => simp only [hk]; rw [ih, Nat.add_assoc]
      | punct => simp only [hk]; rw [ih, Nat.add_assoc]

theorem wpCount_pyJoin (l : List String) :
    wpCount (pyJoin " " l) = (l.map wpCount).sum := by
  induction l with
  | nil => rfl
  | cons x xs ih =>
      cases xs with
      | nil => simp [pyJoin, wpCount]
      | cons y ys =>
          have hd : (x ++ " " ++ pyJoin " " (y :: ys)).data
              = x.data ++ ' ' :: (pyJoin " " (y :: ys)).data := by
            rw [String.data_append, String.data_append]
            simp
          simp only [pyJoin] at ih ⊢
          rw [wpCount, hd, wpGo_append_space]
          simp only [List.map_cons, List.sum_cons]
          rw [← wpCount, ← wpCount, ih]
          simp [List.sum_cons]

theorem wsGo_le_wpGo (cs : List Char) :
    wsGo cs false ≤ wpGo cs .none ∧ wsGo cs true ≤ wpGo cs .word ∧
      wsGo cs true ≤ wpGo cs .punct := by
  induction cs with
  | nil => simp [wsGo, wpGo]
  | cons c cs ih =>
      obtain ⟨h1, h2, h3⟩ := ih
      by_cases hw : isWsChar c = true
      · have hk : wpKindOf c = .none := by simp [wpKindOf, hw]
        refine ⟨?_, ?_, ?_⟩ <;> simp [wsGo, wpGo, hw, hk, h1]
      · have hw' : isWsChar c = false := Bool.of_not_eq_true hw
        by_cases hword : isWordChar c = true
        · have hk : wpKindOf c = .word := by simp [wpKindOf, hw', hword]
          refine ⟨?_, ?_, ?_⟩ <;>
            · simp only [wsGo, wpGo, hw', hk]
              simp <;> omega
        · have hword' : isWordChar c = false := Bool.of_not_eq_true hword
          have hk : wpKindOf c = .punct := by simp [wpKindOf, hw', hword']
          refine ⟨?_, ?_, ?_⟩ <;>
            · simp only [wsGo, wpGo, hw', hk]
              simp <;> omega

theorem wsCount_le_wpCount (s : String) : wsCount s ≤ wpCount s :=
  (wsGo_le_wpGo s.data).1

theorem fallbackCtx_nil (sents : List String)
    (h : ∀ s ∈ sents, searchQual s = none) : fallbackCtx sents = [] := by
  have hgen : ∀ (l : List String) (acc : List String),
      (∀ s ∈ l, searchQual s = none) →
      l.foldl
        (fun acc s =>
          match searchQual s with
          | some q => if q ∈ acc then acc else acc ++ [q]
          | none => acc) acc = acc := by
    intro l
    induction l with
    | nil => intro acc _; rfl
    | cons s l ih =>
        intro acc hl
        simp only [List.foldl_cons, hl s (List.mem_cons_self s l)]
        exact ih acc (fun x hx => hl x (List.mem_cons_of_mem s hx))
  exact hgen sents [] h

theorem mkChunkText_noctx (cfg : SCCfg) (hc : cfg.ctx = []) (parts : List String) :
    mkChunkText cfg parts = pyJoin " " parts := by
  simp [mkChunkText, hc]

theorem takeLast_subset (l : List String) (k : Nat) : takeLast l k ⊆ l := by
  simp only [takeLast]
  exact List.drop_subset _ _

theorem takeLast_length_le (l : List String) (k : Nat) :
    (takeLast l k).length ≤ k := by
  simp only [takeLast, List.length_drop]
  omega

theorem small_sum_lt (l : List String) (hlen : l.length ≤ 2)
    (h : ∀ x ∈ l, wpCount x < 100) : (l.map wpCount).sum < 200 := by
  rcases l with _ | ⟨a, l⟩
  · simp
  rcases l with _ | ⟨b, l⟩
  · have ha := h a (by simp)
    simp
    omega
  rcases l with _ | ⟨c, l⟩
  · have ha := h a (by simp)
    have hb := h b (by simp)
    simp
    omega
  · simp at hlen

theorem reseed_sum_lt (buf : List String) (cll : Nat)
    (h4 : ∀ x ∈ buf, wpCount x < 100) :
    ((takeLast buf (if cll < 100 then 1 else 2)).map wpCount).sum < 200 := by
  refine small_sum_lt _ ?_ ?_
  · refine le_trans (takeLast_length_le _ _) ?_
    split <;> omega
  · exact fun x hx => h4 x (takeLast_subset _ _ hx)

theorem scStep_c2inv (cfg : SCCfg) (st : SCState) (s : String)
    (hctx : cfg.ctx = []) (hh : cfg.heading = none)
    (hmax : 200 ≤ cfg.maxTokens)
    (hs : wpCount s < 100) (hinv : C2Inv cfg st) :
    C2Inv cfg (scStep cfg st s) := by
  obtain ⟨h1, h2, h3, h4, h5⟩ := hinv
  unfold scStep
  by_cases hA : ((clauseM s).isSome && !st.clauseBuf.isEmpty) = true
  · simp only [hA, if_true, ite_true]
    by_cases hB : st.curLen + st.clauseLen ≤ cfg.maxTokens
    · simp only [hB, if_true, ite_true]
      refine ⟨?_, ?_, ?_, ?_, ?_⟩
      · simp [h1, h2]
      · simp
      · exact hB
      · intro x hx
        simp at hx
        rw [hx]
        exact hs
      · exact h5
    · simp only [hB, if_false, ite_false, hh]
      refine ⟨?_, ?_, ?_, ?_, ?_⟩
      · simp
      · simp
      · simp
        have := reseed_sum_lt st.clauseBuf st.clauseLen h4
        omega
      · intro x hx
        simp at hx
        rw [hx]
        exact hs
      · intro c hc
        simp at hc
        rcases hc with hc | hc
        · exact h5 c hc
        · rw [hc]
          rw [mkChunkText_noctx cfg hctx]
          rw [mkChunk]
          simp only [wpCount_pyJoin]
          rw [← h1]
          exact h3
  · simp only [hA, if_false, ite_false]
    refine ⟨?_, ?_, ?_, ?_, ?_⟩
    · exact h1
    · simp [h2]
    · exact h3
    · intro x hx
      rcases List.mem_append.mp hx with hx | hx
      · exact h4 x hx
      · simp at hx
        rw [hx]
        exact hs
    · exact h5

theorem scFinish_c2inv (cfg : SCCfg) (st : SCState)
    (hctx : cfg.ctx = []) (hh : cfg.heading = none)
    (hmax : 200 ≤ cfg.maxTokens) (hinv : C2Inv cfg st) :
    ∀ c ∈ (scFinish cfg st).chunks, wpCount c.chunk_text ≤ cfg.maxTokens := by
  obtain ⟨h1, h2, h3, h4, h5⟩ := hinv
  have hcur : wpCount (mkChunkText cfg st.curChunk) ≤ cfg.maxTokens := by
    rw [mkChunkText_noctx cfg hctx, wpCount_pyJoin, ← h1]
    exact h3
  have hov : wpCount (mkChunkText cfg
      (takeLast st.clauseBuf (if st.clauseLen < 100 then 1 else 2))) ≤
      cfg.maxTokens := by
    rw [mkChunkText_noctx cfg hctx, wpCount_pyJoin]
    have := reseed_sum_lt st.clauseBuf st.clauseLen h4
    omega
  have hmerged : st.curLen + st.clauseLen ≤ cfg.maxTokens →
      wpCount (mkChunkText cfg (st.curChunk ++ st.clauseBuf)) ≤ cfg.maxTokens := by
    intro hB
    rw [mkChunkText_noctx cfg hctx, wpCount_pyJoin]
    simp only [List.map_append, List.sum_append]
    omega
  have mem_ite_chunks : ∀ {P : Prop} [Decidable P] {A B : SCState} {x : Chunk},
      x ∈ (if P then A else B).chunks → x ∈ A.chunks ∨ x ∈ B.chunks := by
    intro P inst A B x hx
    split at hx
    · exact Or.inl hx
    · exact Or.inr hx
  intro c hc
  unfold scFinish at hc
  rw [hh] at hc
  by_cases hbuf : (!st.clauseBuf.isEmpty) = true
  · rw [if_pos hbuf] at hc
    by_cases hB : st.curLen + st.clauseLen ≤ cfg.maxTokens
    · rw [if_pos hB] at hc
      rcases mem_ite_chunks hc with hc | hc
      · simp only [List.mem_append, List.mem_singleton] at hc
        rcases hc with hc | hc
        · exact h5 c hc
        · rw [hc]
          exact hmerged hB
      · exact h5 c hc
    · rw [if_neg hB] at hc
      rcases mem_ite_chunks hc with hc | hc <;>
        simp only [List.mem_append, List.mem_cons, List.mem_singleton,
          List.not_mem_nil, or_false] at hc
      · rcases hc with (hc | hc | hc) | hc
        · exact h5 c hc
        · rw [hc]; exact hcur
        · rw [hc]; exact hov
        · rw [hc]; exact hov
      · rcases hc with hc | hc | hc
        · exact h5 c hc
        · rw [hc]; exact hcur
        · rw [hc]; exact hov
  · rw [if_neg hbuf] at hc
    rcases mem_ite_chunks hc with hc | hc
    · simp only [List.mem_append, List.mem_singleton] at hc
      rcases hc with hc | hc
      · exact h5 c hc
      · rw [hc]; exact hcur
    · exact h5 c hc

theorem foldl_c2inv (cfg : SCCfg)
    (hctx : cfg.ctx = []) (hh : cfg.heading = none)
    (hmax : 200 ≤ cfg.maxTokens) :
    ∀ (l : List String) (st : SCState), (∀ s ∈ l, wpCount s < 100) →
      C2Inv cfg st → C2Inv cfg (l.foldl (scStep cfg) st) := by
  intro l
  induction l with
  | nil => intro st _ hinv; exact hinv
  | cons s l ih =>
      intro st hl hinv
      simp only [List.foldl_cons]
      exact ih _ (fun x hx => hl x (List.mem_cons_of_mem s hx))
        (scStep_c2inv cfg st s hctx hh hmax (hl s (List.mem_cons_self s l)) hinv)

theorem c3_fold (cfg : SCCfg) :
    ∀ (l : List String) (st : SCState),
      st.chunks = [] →
      st.curLen = (st.curChunk.map wpCount).sum →
      st.clauseLen = (st.clauseBuf.map wpCount).sum →
      st.curLen + st.clauseLen + (l.map wpCount).sum ≤ cfg.maxTokens →
      (l.foldl (scStep cfg) st).chunks = [] ∧
      (l.foldl (scStep cfg) st).curChunk ++ (l.foldl (scStep cfg) st).clauseBuf
        = st.curChunk ++ st.clauseBuf ++ l ∧
      (l.foldl (scStep cfg) st).curLen
        = (((l.foldl (scStep cfg) st).curChunk).map wpCount).sum ∧
      (l.foldl (scStep cfg) st).clauseLen
        = (((l.foldl (scStep cfg) st).clauseBuf).map wpCount).sum ∧
      (l.foldl (scStep cfg) st).curLen + (l.foldl (scStep cfg) st).clauseLen
        = st.curLen + st.clauseLen + (l.map wpCount).sum := by
  intro l
  induction l with
  | nil =>
      intro st h1 h2 h3 _
      simp [h1, h2, h3]
  | cons s l ih =>
      intro st h1 h2 h3 h4
      simp only [List.map_cons, List.sum_cons] at h4
      simp only [List.foldl_cons]
      by_cases hA : ((clauseM s).isSome && !st.clauseBuf.isEmpty) = true
      · have hB : st.curLen + st.clauseLen ≤ cfg.maxTokens := by omega
        have hstep : scStep cfg st s =
            { chunks := st.chunks, curChunk := st.curChunk ++ st.clauseBuf,
              curLen := st.curLen + st.clauseLen, clauseBuf := [s],
              clauseLen := 0 + wpCount s, curClause := clauseM s } := by
          simp only [scStep]
          rw [if_pos hA, if_pos hB]
          rfl
        rw [hstep]
        obtain ⟨i1, i2, i3, i4, i5⟩ := ih
          { chunks := st.chunks, curChunk := st.curChunk ++ st.clauseBuf,
            curLen := st.curLen + st.clauseLen, clauseBuf := [s],
            clauseLen := 0 + wpCount s, curClause := clauseM s }
          h1
          (by simp [h2, h3])
          (by simp)
          (by simp; omega)
        refine ⟨i1, ?_, i3, i4, ?_⟩
        · rw [i2]
          simp
        · rw [i5]
          simp
          omega
      · have hstep : scStep cfg st s =
            { chunks := st.chunks, curChunk := st.curChunk,
              curLen := st.curLen, clauseBuf := st.clauseBuf ++ [s],
              clauseLen := st.clauseLen + wpCount s, curClause := st.curClause } := by
          simp only [scStep]
          rw [if_neg hA]
        rw [hstep]
        obtain ⟨i1, i2, i3, i4, i5⟩ := ih
          { chunks := st.chunks, curChunk := st.curChunk,
            curLen := st.curLen, clauseBuf := st.clauseBuf ++ [s],
            clauseLen := st.clauseLen + wpCount s, curClause := st.curClause }
          h1 h2
          (by simp [h3])
          (by simp; omega)
        refine ⟨i1, ?_, i3, i4, ?_⟩
        · rw [i2]
          simp
        · rw [i5]
          simp
          omega

theorem scFinish_fit (cfg : SCCfg) (hh : cfg.heading = none) (st : SCState)
    (hch : st.chunks = [])
    (hfit : st.curLen + st.clauseLen ≤ cfg.maxTokens)
    (hne : st.curChunk ++ st.clauseBuf ≠ []) :
    (scFinish cfg st).chunks =
      [mkChunk cfg st.curClause (mkChunkText cfg (st.curChunk ++ st.clauseBuf))] := by
  unfold scFinish
  rw [hh]
  by_cases hbuf : (!st.clauseBuf.isEmpty) = true
  · rw [if_pos hbuf, if_pos hfit]
    have hcc : (st.curChunk ++ st.clauseBuf).isEmpty = false := by
      cases hcc2 : st.curChunk ++ st.clauseBuf
      · exact absurd hcc2 hne
      · rfl
    rw [if_pos]
    · simp [hch]
    · simp [hcc]
  · have hbe : st.clauseBuf = [] := by
      cases hb2 : st.clauseBuf with
      | nil => rfl
      | cons x xs =>
          exfalso
          apply hbuf
          simp [hb2]
    rw [if_neg hbuf]
    have hcc : st.curChunk.isEmpty = false := by
      cases hc2 : st.curChunk with
      | nil =>
          exfalso
          apply hne
          simp [hbe, hc2]
      | cons x xs => rfl
    rw [if_pos]
    · simp [hch, hbe]
    · simp [hcc]

/-! ## Claim theorems -/

/-- Claim C1 (code bug): on a non-empty element sequence in which no
element is classified as a heading, the section-grouping loop leaves
`current_metadata` as Python `None`, and `semantic_chunking` raises
`AttributeError` at `metadata.get('context', [])` instead of returning a
chunk sequence — for any sentence splitter. -/
theorem c1_no_heading_crash :
    ∀ split : String → List String,
      ingestPipeline split c1elems = .error "AttributeError: NoneType metadata" :=
  fun _ => rfl

/-- Claim C3, amended: the end-of-section flush drops nothing only when
everything fits: if the whole section's sentences sum to at most
`max_tokens` (no heading, no qualifiers in play), exactly one chunk is
emitted and its text is the space-join of every sentence in order.  In
general, when a clause buffer does not fit, only its 1-2 sentence overlap
tail is carried into the next chunk and its earlier sentences can be
dropped (see the counterexample). -/
theorem c3_no_drop_when_fits (sents : List String) (md : RecMeta) (maxT ov : Nat)
    (hne : sents ≠ []) (hmd : md.context = [])
    (hq : ∀ s ∈ sents, searchQual s = none)
    (hfit : (sents.map wpCount).sum ≤ maxT) :
    (semanticChunkingCore sents none md maxT ov).map Chunk.chunk_text
      = [pyJoin " " sents] := by
  simp only [semanticChunkingCore, hmd, fallbackCtx_nil sents hq]
  obtain ⟨hch, happ, hcl, hbl, hsum⟩ := c3_fold ⟨none, md, [], maxT⟩ sents
    ⟨[], [], 0, [], 0, md.clause⟩ rfl rfl rfl (by simpa using hfit)
  rw [scFinish_fit ⟨none, md, [], maxT⟩ rfl _ hch
    (by rw [hsum]; simpa using hfit)
    (by rw [happ]; simpa using hne)]
  rw [happ]
  simp [mkChunk, mkChunkText_noctx ⟨none, md, [], maxT⟩ rfl]

/-- Claim C3, amended, witness at a concrete one-sentence section. -/
theorem c3_no_drop_when_fits_witness :
    (semanticChunkingCore ["hello there"] none mdEmpty 500 100).map
        Chunk.chunk_text = [pyJoin " " ["hello there"]] :=
  c3_no_drop_when_fits ["hello there"] mdEmpty 500 100 (by decide) rfl
    (by decide) (by decide)

/-- Claim C4, counterexample: on the scenario input the records are not
one heading record followed by two clause records with markers `1.` and
`2.`; in fact no record carries a clause marker at all. -/
theorem c4_counterexample :
    ¬ ((detectStructure c4elems).map (fun r => (r.heading, r.clause)) =
        [ (some "SECTION 1: DEFINITIONS", none),
          (some "SECTION 1: DEFINITIONS", some "1."),
          (some "SECTION 1: DEFINITIONS", some "2.") ]) := by
  decide

/-- Claim C4, amended: on the scenario input, `detect_structure` returns
three records, but "SECTION 1: DEFINITIONS" is a plain-text record with
`heading = null` (the all-caps alternative needs ten consecutive
letters/spaces and the digit breaks the run at eight; without a Title
category nothing else applies), while the two numbered sentences match the
case-insensitive heading alternative `\d+\.\s*[A-Z\s]+` and become heading
records with `clause = null` — not clause records. -/
theorem c4_records_eval :
    (detectStructure c4elems).map (fun r => (r.heading, r.clause, r.sect)) =
      [ (none, none, none),
        (some "1. Hospital means an institution...", none,
          some "1. Hospital means an institution..."),
        (some "2. Ambulance means...", none, some "2. Ambulance means...") ] := by
  decide

/-- Claim C6, counterexample: the first element `a) foo` is emitted before
any qualifier has been detected, yet at return its record's context is not
the empty snapshot — processing of the later element `costs: not covered.`
mutated the shared context list. -/
theorem c6_counterexample :
    ¬ (((detectStructure c6elems).head?).map ARecord.context = some []) := by
  decide

/-- Claim C5: `detect_structure` emits exactly one record per element
with non-empty trimmed text (the output length equals the count of such
elements), and an element with empty or whitespace-only trimmed text is
skipped entirely — deleting it anywhere in the sequence leaves the output
unchanged, because its processing touches neither the record list nor any
detector state (the page update sits after the emptiness check). -/
theorem c5_coverage :
    (∀ es : List PElement,
        (detectStructure es).length = es.countP (fun e => elemText e != "")) ∧
    (∀ (es₁ es₂ : List PElement) (e : PElement), elemText e = "" →
        detectStructure (es₁ ++ e :: es₂) = detectStructure (es₁ ++ es₂)) := by
  constructor
  · intro es
    unfold detectStructure
    simp [dsGo_length]
  · intro es₁ es₂ e he
    unfold detectStructure
    have h1 : dsGo (es₁ ++ e :: es₂) {} = dsGo (es₁ ++ es₂) {} := by
      rw [dsGo_append, dsGo_append]
      have h2 : dsGo (e :: es₂) (dsGo es₁ ({} : DetectState)).1 =
          dsGo es₂ (dsGo es₁ ({} : DetectState)).1 := by
        simp [dsGo, dsStep_empty _ e he]
      rw [h2]
    rw [h1]

/-- Claim C5, witness: a whitespace-only element produces no record and
leaves the rest of the output untouched. -/
theorem c5_coverage_witness :
    (detectStructure [{ text := some "  " }, c10c]).length = 1 ∧
    detectStructure [{ text := some "  " }, c10c] = detectStructure [c10c] := by
  constructor
  · have h := c5_coverage.1 [{ text := some "  " }, c10c]
    rw [h]
    decide
  · exact c5_coverage.2 [] [c10c] { text := some "  " } (by decide)

/-- Claim C6, amended: a record's context is not a snapshot fixed at
creation.  Non-heading records share the section's one mutable context
list, so at return each record's context also contains qualifiers
detected after the record was emitted.  In particular, for any input with
no heading-classified element, every record's context equals the full
qualifier list contributed by the whole input. -/
theorem c6_context_is_shared (es : List PElement)
    (h : ∀ e ∈ es, isHeadingElem e = false) :
    ∀ r ∈ detectStructure es, r.context = qualsOf es := by
  intro r hr
  rw [detectStructure_eq] at hr
  obtain ⟨raw, hraw, rfl⟩ := List.mem_map.mp hr
  obtain ⟨hf, hc, hctx⟩ := dsGo_no_heading es {} h
  have h1 := hctx raw hraw
  simp only [resolveRec, h1, resolveCtx, hf, hc]
  simp

/-- Claim C6, amended, witness: both records of the two-element input
carry the qualifier detected only at the second element. -/
theorem c6_context_is_shared_witness :
    (∀ r ∈ detectStructure c6elems, r.context = qualsOf c6elems) ∧
    qualsOf c6elems = ["not covered"] :=
  ⟨c6_context_is_shared c6elems (by decide), by decide⟩

/-- Claim C7, counterexample: for an input containing a Table-category
record, the chunking stage emits a single merged chunk for the whole
heading group; no chunk's text equals the table record's own text. -/
theorem c7_counterexample :
    (processChunks (fun s => [s]) (detectStructure c7elems)).map
        (List.map Chunk.chunk_text) =
      .ok ["POLICY BENEFITS POLICY BENEFITS Row1 2 Row2 3 fees: apply."] ∧
    "POLICY BENEFITS POLICY BENEFITS Row1 2 Row2 3 fees: apply." ≠
      "Row1 2 Row2 3" := by
  decide

/-- Claim C7, amended: a Table-category record receives no special
treatment in the chunking stage: its text is concatenated into its
heading group's section text like any other record, so the emitted chunk
contains the table text merged between the neighbouring records' texts
(both neighbour texts occur in the single emitted chunk around it). -/
theorem c7_table_merged :
    (processChunks (fun s => [s]) (detectStructure c7elems)).map
        (List.map (fun c =>
          (strContains c.chunk_text "Row1 2 Row2 3",
           strContains c.chunk_text "POLICY BENEFITS",
           strContains c.chunk_text "fees: apply."))) =
      .ok [(true, true, true)] := by
  decide

set_option maxRecDepth 200000 in
/-- Claim C2, counterexample: with the default parameters
`max_tokens = 500`, `overlap = 100`, two sentences of 321 and 320
whitespace-delimited words (each below `max_tokens`, so no chunk can fall
under the claim's single-oversized-sentence exception) produce chunks of
641 words: the clause buffer exceeds `max_tokens`, its two-sentence
overlap tail reseeds the next chunk, and that chunk is emitted with
641 > 600 tokens. -/
theorem c2_counterexample :
    (∀ s ∈ c2sents, wsCount s ≤ 500) ∧
    ¬ (∀ c ∈ semanticChunkingCore c2sents none mdEmpty 500 100,
        wsCount c.chunk_text ≤ 500 + 100) := by
  decide

/-- Claim C2, amended: the claimed bound holds under restrictions the
counterexample shows to be necessary: when no heading and no contextual
qualifiers are in play, every sentence is under 100 word-punct tokens
(so the 1-2 sentence overlap tail stays under 200 tokens) and
`max_tokens ≥ 200`, every produced chunk satisfies
`token_count(chunk_text) ≤ max_tokens ≤ max_tokens + overlap_tokens`
under whitespace word count.  Without the sentence-size restriction the
bound fails even though no single sentence exceeds `max_tokens`, because
the implementation never reads its `overlap` parameter and the
two-sentence overlap tail is bounded only by sentence sizes. -/
theorem c2_bound_restricted (sents : List String) (md : RecMeta) (maxT ov : Nat)
    (hmd : md.context = [])
    (hs : ∀ s ∈ sents, wpCount s < 100 ∧ searchQual s = none)
    (hmax : 200 ≤ maxT) :
    ∀ c ∈ semanticChunkingCore sents none md maxT ov,
      wsCount c.chunk_text ≤ maxT + ov := by
  intro c hc
  simp only [semanticChunkingCore, hmd,
    fallbackCtx_nil sents (fun s h => (hs s h).2)] at hc
  refine le_trans (wsCount_le_wpCount _) (le_trans ?_ (Nat.le_add_right maxT ov))
  refine scFinish_c2inv ⟨none, md, [], maxT⟩ _ rfl rfl hmax ?_ c hc
  refine foldl_c2inv ⟨none, md, [], maxT⟩ rfl rfl hmax sents _
    (fun s h => (hs s h).1) ?_
  refine ⟨rfl, rfl, Nat.zero_le _, ?_, ?_⟩ <;> simp

/-- Claim C2, amended, witness: the single chunk which the input
`["a b c"]` produces obeys the bound. -/
theorem c2_bound_restricted_witness :
    wsCount "a b c" ≤ 200 + 0 :=
  c2_bound_restricted ["a b c"] mdEmpty 200 0 rfl (by decide) (by decide)
    { chunk_text := "a b c", heading := none, sect := none, clause := "",
      page := 1, context := [] } (by decide)

/-- Claim C3, counterexample: in a section passed to `semantic_chunking`
(`max_tokens = 10`) the clause `2. qq` is buffered, the buffer does not
fit, and the overlap rule keeps only the buffer's last sentence — so the
sentence `2. qq` appears in no emitted chunk at all. -/
theorem c3_counterexample :
    "2. qq" ∈ c3sents ∧
    ∀ c ∈ semanticChunkingCore c3sents none mdEmpty 10 100,
      strContains c.chunk_text "2. qq" = false := by
  decide

/-- Claim C8, counterexample: `clean_text` is not idempotent.  On
`a- b- c` the hyphen-repair pass rewrites the first split and resumes
scanning after it, leaving `ab- c`; a second application merges again,
giving `abc`. -/
theorem c8_counterexample :
    cleanText (cleanText "a- b- c" ".pdf") ".pdf" ≠ cleanText "a- b- c" ".pdf" := by
  decide

/-- Claim C8, amended: normalization is idempotent on representative
boilerplate inputs (page markers, UIN codes, whitespace runs, Confidential
banners, rights notices) whose first-pass output contains no residual
hyphen-split pattern; it is not idempotent for all texts, because
hyphen repair can leave a new `word- word` occurrence behind. -/
theorem c8_idempotent_on_reps :
    ∀ t ∈ c8reps, cleanText (cleanText t ".pdf") ".pdf" = cleanText t ".pdf" := by
  decide

/-- Claim C8, amended, witness at the first representative input. -/
theorem c8_idempotent_on_reps_witness :
    cleanText (cleanText "Page 3 of 10 coverage applies" ".pdf") ".pdf" =
      cleanText "Page 3 of 10 coverage applies" ".pdf" :=
  c8_idempotent_on_reps "Page 3 of 10 coverage applies" (by decide)

/-- Claim C9, counterexample: on the scenario chunk, reference extraction
does not attach `["See Section 4.2"]`. -/
theorem c9_counterexample :
    ¬ ((extractRefs c9chunk).references = some ["See Section 4.2"]) := by
  decide

/-- Claim C9, amended: the identifier class of the reference pattern is
case-insensitive and includes letters, digits, dots, hyphens and
whitespace, so the greedy match extends through the trailing words: the
attached reference for this chunk is `"See Section 4.2 for details"`. -/
theorem c9_reference_eval :
    (extractRefs c9chunk).references = some ["See Section 4.2 for details"] := by
  decide

/-- Claim C10: `detect_structure` never resets its running clause state at
a heading.  If a clause marker `m` is matched at some element, a heading
follows, and no later element up to a plain-text / list-item / table
element `p` is classified as a clause marker, then the record emitted for
`p` still carries `clause = m` from the earlier section; the heading
record itself nevertheless carries `clause = null`. -/
theorem c10_clause_not_reset :
    (∀ (A B D : List PElement) (c h p : PElement) (m : String),
        elemText c ≠ "" → (headingB (elemText c) || isTitleCat c) = false →
        clauseM (elemText c) = some m →
        isHeadingElem h = true →
        (∀ e ∈ B, isClauseElem e = false) →
        (∀ e ∈ D, isClauseElem e = false) →
        elemText p ≠ "" → (headingB (elemText p) || isTitleCat p) = false →
        clauseM (elemText p) = none →
        (p.category = some Category.ListItem ∨ p.category = some Category.Table ∨
          isAnnex (elemText p) = false) →
        ((detectStructure (A ++ c :: (B ++ h :: (D ++ [p])))).getLast?).map
            ARecord.clause = some (some m)) ∧
    (∀ e : PElement, isHeadingElem e = true →
        (detectStructure [e]).map ARecord.clause = [none]) := by
  constructor
  · intro A B D c h p m hc0 hcH hcm hh hB hD hp0 hpH hpC hpcat
    have hL : A ++ c :: (B ++ h :: (D ++ [p])) = (A ++ c :: (B ++ h :: D)) ++ [p] := by
      simp
    rw [hL, detectStructure_eq, dsGo_append]
    have hclM : (dsGo (A ++ c :: (B ++ h :: D)) ({} : DetectState)).1.clause
        = some m := by
      rw [dsGo_append, dsGo_cons_fst]
      rw [dsGo_clause_preserved]
      · exact dsStep_clause_set _ c m hc0 hcH hcm
      · intro e he
        rcases List.mem_append.mp he with hB' | hh'
        · exact hB e hB'
        · rcases List.mem_cons.mp hh' with rfl | hD'
          · exact heading_not_clause e hh
          · exact hD e hD'
    have hemit := dsStep_plain_emits
      (dsGo (A ++ c :: (B ++ h :: D)) ({} : DetectState)).1 p hp0 hpH hpC hpcat
    obtain ⟨r, hr, hrc⟩ := Option.map_eq_some'.mp hemit
    rw [hclM] at hrc
    simp only [dsGo_cons_snd, dsGo_nil, hr, Option.toList_some, List.append_nil,
      List.map_append, List.map_cons, List.map_nil]
    rw [List.getLast?_concat]
    simp [resolveRec_clause, hrc]
  · intro e he
    rw [isHeadingElem, Bool.and_eq_true] at he
    have h0 : elemText e ≠ "" := by simpa using he.1
    rw [detectStructure_eq]
    simp [dsGo_cons_snd, dsGo_nil, dsStep, h0, he.2, resolveRec_clause]

/-- Claim C10, witness: `a) x`, then the heading `HELLO WORLD FRIENDS`,
then the plain element `5% fee`, whose record still carries `a)`. -/
theorem c10_clause_not_reset_witness :
    ((detectStructure [c10c, c10h, c10p]).getLast?).map ARecord.clause =
        some (some "a)") ∧
    (detectStructure [c10h]).map ARecord.clause = [none] :=
  ⟨c10_clause_not_reset.1 [] [] [] c10c c10h c10p "a)"
      (by decide) (by decide) (by decide) (by decide)
      (by intro e he; cases he) (by intro e he; cases he)
      (by decide) (by decide) (by decide) (by decide),
    c10_clause_not_reset.2 c10h (by decide)⟩

end DocLoader
